import Mathlib

/-!
Verification of the in-memory cache member-event handlers
(`cache/in-memory/src/event/member.rs`): the entity tables for members and
users, the guild-roster and user-membership relational indices, and the
update handlers for the `MemberAdd`, `MemberChunk`, `MemberRemove` and
`MemberUpdate` gateway events.

Identifiers are modelled as naturals, timestamps and names as strings,
the concurrent maps as functions into `Option`, and the id sets stored in
the relational indices as `Finset`.
-/

namespace Twilight

abbrev GuildId := Nat
abbrev UserId := Nat
abbrev RoleId := Nat

/-- Modelled from the spec: the user profile record (`twilight_model::user::User`
is not under src/; §3 describes it as id plus profile data shared across
guild contexts). -/
structure User where
  id : UserId
  name : String
deriving DecidableEq, Repr

/-- Modelled from the spec: the full member payload (`twilight_model::guild::Member`
is not under src/); its fields are exactly the ones `cache_member` reads. -/
structure Member where
  user : User
  deaf : Bool
  joined_at : Option String
  mute : Bool
  nick : Option String
  pending : Bool
  premium_since : Option String
  roles : List RoleId
deriving DecidableEq, Repr

/-- Modelled from the spec: the partial member payload
(`twilight_model::guild::PartialMember` is not under src/); its fields are
exactly the ones `cache_borrowed_partial_member` reads — it carries no
`pending` and no `premium_since`. -/
structure PartialMember where
  deaf : Bool
  joined_at : Option String
  mute : Bool
  nick : Option String
  roles : List RoleId
deriving DecidableEq, Repr

/-- Modelled from the spec: the interaction member payload
(`InteractionMember` is not under src/); its fields are exactly the ones
`cache_borrowed_interaction_member` reads — it carries no `deaf` and no
`mute`. -/
structure InteractionMember where
  id : UserId
  joined_at : Option String
  nick : Option String
  premium_since : Option String
  roles : List RoleId
deriving DecidableEq, Repr

/-- The cached member projection (`CachedMember`), with the fields
`cache_member` populates. -/
structure CachedMember where
  deaf : Option Bool
  guild_id : GuildId
  joined_at : Option String
  mute : Option Bool
  nick : Option String
  pending : Bool
  premium_since : Option String
  roles : List RoleId
  user_id : UserId
deriving DecidableEq, Repr

/-- Modelled from the spec: the resource kinds of the resource-selector
bitset (§6); only the member flag is exercised by these handlers. -/
inductive ResourceType where
  | GUILD
  | MEMBER
  | USER
  | ROLE
deriving DecidableEq, Repr

/-- Modelled from the spec: the resource-selection configuration, one flag
per entity kind, set once at construction (§6). -/
abbrev ResourceSelector := ResourceType → Bool

/-- `InMemoryCache::wants`: does the configured selector include this
resource kind? -/
def wants (c : ResourceSelector) (t : ResourceType) : Bool := c t

/-- The observable state of the cache: the member and user entity tables
and the two relational indices, with the field names of `InMemoryCacheRef`. -/
structure CacheState where
  members : GuildId × UserId → Option CachedMember
  users : UserId → Option User
  guild_members : GuildId → Option (Finset UserId)
  user_guilds : UserId → Option (Finset GuildId)

theorem CacheState.ext {s t : CacheState} (h1 : s.members = t.members)
    (h2 : s.users = t.users) (h3 : s.guild_members = t.guild_members)
    (h4 : s.user_guilds = t.user_guilds) : s = t := by
  cases s; cases t; cases h1; cases h2; cases h3; cases h4; rfl

/-- The empty cache: every table and index empty. -/
def emptyCache : CacheState :=
  { members := fun _ => none
    users := fun _ => none
    guild_members := fun _ => none
    user_guilds := fun _ => none }

/-- Point update of a map modelled as a function (a `DashMap::insert` /
`remove` at one key). -/
def upd {α β : Type} [DecidableEq α] (f : α → β) (k : α) (v : β) : α → β :=
  fun x => if x = k then v else f x

@[simp] theorem upd_same {α β : Type} [DecidableEq α] (f : α → β) (k : α) (v : β) :
    upd f k v k = v := if_pos rfl

theorem upd_ne {α β : Type} [DecidableEq α] (f : α → β) {k x : α} (v : β)
    (h : x ≠ k) : upd f k v x = f x := if_neg h

theorem upd_self {α β : Type} [DecidableEq α] (f : α → β) (k : α) :
    upd f k (f k) = f := by
  funext x
  unfold upd
  split
  case isTrue h => rw [h]
  case isFalse h => rfl

theorem upd_apply {α β : Type} [DecidableEq α] (f : α → β) (k x : α) (v : β) :
    upd f k v x = if x = k then v else f x := rfl

/-- The guild-roster index entry as a set: the set of cached member user
ids of a guild (empty when the guild has no index entry). -/
def roster (s : CacheState) (g : GuildId) : Finset UserId :=
  (s.guild_members g).getD ∅

/-- The membership index entry as a set: the set of guild ids a user is
cached in (empty when the user has no index entry). -/
def membership (s : CacheState) (u : UserId) : Finset GuildId :=
  (s.user_guilds u).getD ∅

/-- Modelled from the spec: `InMemoryCache::cache_user` is not under src/.
Per §4.3 and §3 it upserts the embedded user profile into the User store
and records the guild association in the membership index ("User is
created/refreshed whenever any guild-scoped event carries embedded user
data; this core never creates a standalone user without a guild
association"). -/
def cache_user (s : CacheState) (user : User) (guild_id : GuildId) : CacheState :=
  { s with
    users := upd s.users user.id (some user)
    user_guilds := upd s.user_guilds user.id
      (some (insert guild_id ((s.user_guilds user.id).getD ∅))) }

/-- Modelled from the spec: the `PartialEq<Member> for CachedMember` impl
is not under src/; per §4.3 the idempotency short-circuit compares by
"full value equality", i.e. on every field the payload carries. -/
def CachedMember.eqMember (c : CachedMember) (m : Member) : Prop :=
  c.deaf = some m.deaf ∧ c.joined_at = m.joined_at ∧ c.mute = some m.mute ∧
  c.nick = m.nick ∧ c.pending = m.pending ∧
  c.premium_since = m.premium_since ∧ c.roles = m.roles ∧ c.user_id = m.user.id

instance (c : CachedMember) (m : Member) : Decidable (c.eqMember m) := by
  unfold CachedMember.eqMember; infer_instance

/-- Modelled from the spec: the `PartialEq<PartialMember> for CachedMember`
impl is not under src/; full value equality on every field the partial
payload carries (deaf, joined_at, mute, nick, roles). -/
def CachedMember.eqPartialMember (c : CachedMember) (m : PartialMember) : Prop :=
  c.deaf = some m.deaf ∧ c.joined_at = m.joined_at ∧ c.mute = some m.mute ∧
  c.nick = m.nick ∧ c.roles = m.roles

instance (c : CachedMember) (m : PartialMember) : Decidable (c.eqPartialMember m) := by
  unfold CachedMember.eqPartialMember; infer_instance

/-- Modelled from the spec: the `PartialEq<InteractionMember> for
CachedMember` impl is not under src/; full value equality on every field
the interaction payload carries (joined_at, nick, premium_since, roles). -/
def CachedMember.eqInteractionMember (c : CachedMember) (m : InteractionMember) : Prop :=
  c.joined_at = m.joined_at ∧ c.nick = m.nick ∧
  c.premium_since = m.premium_since ∧ c.roles = m.roles

instance (c : CachedMember) (m : InteractionMember) : Decidable (c.eqInteractionMember m) := by
  unfold CachedMember.eqInteractionMember; infer_instance

/-- The cached member projection `cache_member` builds from a full member
payload. -/
def Member.toCached (member : Member) (guild_id : GuildId) : CachedMember :=
  { deaf := some member.deaf
    guild_id := guild_id
    joined_at := member.joined_at
    mute := some member.mute
    nick := member.nick
    pending := member.pending
    premium_since := member.premium_since
    roles := member.roles
    user_id := member.user.id }

/-- The non-short-circuit body of `cache_member`: upsert the embedded user,
build and upsert the cached member projection, insert the user id into the
guild roster index. -/
def cache_member_store (s : CacheState) (guild_id : GuildId) (member : Member) :
    CacheState :=
  let user_id := member.user.id
  let s1 := cache_user s member.user guild_id
  let cached : CachedMember := member.toCached guild_id
  let s2 := { s1 with members := upd s1.members (guild_id, user_id) (some cached) }
  { s2 with
    guild_members := upd s2.guild_members guild_id
      (some (insert user_id ((s2.guild_members guild_id).getD ∅))) }

/-- `InMemoryCache::cache_member`: short-circuit when an identical member
is already cached at `(guild_id, member.user.id)`, else run the store body. -/
def cache_member (s : CacheState) (guild_id : GuildId) (member : Member) :
    CacheState :=
  match s.members (guild_id, member.user.id) with
  | some m => if m.eqMember member then s else cache_member_store s guild_id member
  | none => cache_member_store s guild_id member

/-- `InMemoryCache::cache_members`: cache each member of the iterator in
order. -/
def cache_members (s : CacheState) (guild_id : GuildId) (members : List Member) :
    CacheState :=
  members.foldl (fun t m => cache_member t guild_id m) s

/-- The non-short-circuit body of `cache_borrowed_partial_member`: insert
the user id into the roster index, then upsert a cached member with
`pending := false` and `premium_since := none` (the partial payload carries
neither field). No user upsert happens on this path. -/
def cache_borrowed_partial_member_store (s : CacheState) (guild_id : GuildId)
    (member : PartialMember) (user_id : UserId) : CacheState :=
  let s1 := { s with
    guild_members := upd s.guild_members guild_id
      (some (insert user_id ((s.guild_members guild_id).getD ∅))) }
  let cached : CachedMember :=
    { deaf := some member.deaf
      guild_id := guild_id
      joined_at := member.joined_at
      mute := some member.mute
      nick := member.nick
      pending := false
      premium_since := none
      roles := member.roles
      user_id := user_id }
  { s1 with members := upd s1.members (guild_id, user_id) (some cached) }

/-- `InMemoryCache::cache_borrowed_partial_member`. -/
def cache_borrowed_partial_member (s : CacheState) (guild_id : GuildId)
    (member : PartialMember) (user_id : UserId) : CacheState :=
  match s.members (guild_id, user_id) with
  | some m =>
      if m.eqPartialMember member then s
      else cache_borrowed_partial_member_store s guild_id member user_id
  | none => cache_borrowed_partial_member_store s guild_id member user_id

/-- The non-short-circuit body of `cache_borrowed_interaction_member`:
insert the user id into the roster index, then upsert a cached member whose
`deaf` and `mute` are the prior cached values (passed in; `none` when no
member was cached). `pending := false`; no user upsert on this path. -/
def cache_borrowed_interaction_member_store (s : CacheState) (guild_id : GuildId)
    (member : InteractionMember) (deaf mute : Option Bool) : CacheState :=
  let s1 := { s with
    guild_members := upd s.guild_members guild_id
      (some (insert member.id ((s.guild_members guild_id).getD ∅))) }
  let cached : CachedMember :=
    { deaf := deaf
      guild_id := guild_id
      joined_at := member.joined_at
      mute := mute
      nick := member.nick
      pending := false
      premium_since := member.premium_since
      roles := member.roles
      user_id := member.id }
  { s1 with members := upd s1.members (guild_id, member.id) (some cached) }

/-- `InMemoryCache::cache_borrowed_interaction_member`. -/
def cache_borrowed_interaction_member (s : CacheState) (guild_id : GuildId)
    (member : InteractionMember) : CacheState :=
  match s.members (guild_id, member.id) with
  | some m =>
      if m.eqInteractionMember member then s
      else cache_borrowed_interaction_member_store s guild_id member m.deaf m.mute
  | none => cache_borrowed_interaction_member_store s guild_id member none none

/-- The `MemberAdd` gateway payload: a guild id and a full member. -/
structure MemberAdd where
  guild_id : GuildId
  member : Member
deriving DecidableEq, Repr

/-- The `MemberChunk` gateway payload (the fields the handler reads). -/
structure MemberChunk where
  guild_id : GuildId
  members : List Member
deriving DecidableEq, Repr

/-- The `MemberRemove` gateway payload: a guild id and the removed user. -/
structure MemberRemove where
  guild_id : GuildId
  user : User
deriving DecidableEq, Repr

/-- The `MemberUpdate` gateway payload (the fields the handler reads):
`deaf` and `mute` are optional, the rest always populated. -/
structure MemberUpdate where
  guild_id : GuildId
  user : User
  deaf : Option Bool
  mute : Option Bool
  nick : Option String
  roles : List RoleId
  joined_at : String
  pending : Bool
deriving DecidableEq, Repr

/-- `impl UpdateCache for MemberAdd`: gate, cache the member, then insert
its user id into the guild roster index. -/
def MemberAdd.update (e : MemberAdd) (c : ResourceSelector) (s : CacheState) :
    CacheState :=
  if !(wants c ResourceType.MEMBER) then s
  else
    let s1 := cache_member s e.guild_id e.member
    { s1 with
      guild_members := upd s1.guild_members e.guild_id
        (some (insert e.member.user.id ((s1.guild_members e.guild_id).getD ∅))) }

/-- `impl UpdateCache for MemberChunk`: gate, return on an empty member
list, else cache every member and extend the guild roster index with all
their user ids in one operation. -/
def MemberChunk.update (e : MemberChunk) (c : ResourceSelector) (s : CacheState) :
    CacheState :=
  if !(wants c ResourceType.MEMBER) then s
  else if e.members.isEmpty then s
  else
    let s1 := cache_members s e.guild_id e.members
    { s1 with
      guild_members := upd s1.guild_members e.guild_id
        (some (e.members.foldl (fun acc m => insert m.user.id acc)
          ((s1.guild_members e.guild_id).getD ∅))) }

/-- `impl UpdateCache for MemberRemove`: gate, remove the member record,
remove the user id from the guild roster entry when one exists, remove the
guild id from the user membership entry when one exists, and remove the
User record when the membership entry became empty. -/
def MemberRemove.update (e : MemberRemove) (c : ResourceSelector) (s : CacheState) :
    CacheState :=
  if !(wants c ResourceType.MEMBER) then s
  else
    let s1 := { s with members := upd s.members (e.guild_id, e.user.id) none }
    let s2 :=
      match s1.guild_members e.guild_id with
      | some ms =>
          { s1 with
            guild_members :=
              upd s1.guild_members e.guild_id (some (ms.erase e.user.id)) }
      | none => s1
    match s2.user_guilds e.user.id with
    | some gs =>
        let gs2 := gs.erase e.guild_id
        let s3 := { s2 with user_guilds := upd s2.user_guilds e.user.id (some gs2) }
        if gs2 = ∅ then { s3 with users := upd s3.users e.user.id none } else s3
    | none => s2

/-- `impl UpdateCache for MemberUpdate`: gate, drop the event when no
member is cached at `(guild_id, user.id)`, else merge: `deaf` and `mute`
take the event value when supplied and otherwise keep the prior value;
`nick`, `roles`, `joined_at` and `pending` are overwritten. -/
def MemberUpdate.update (e : MemberUpdate) (c : ResourceSelector) (s : CacheState) :
    CacheState :=
  if !(wants c ResourceType.MEMBER) then s
  else
    match s.members (e.guild_id, e.user.id) with
    | none => s
    | some member =>
        let member2 : CachedMember :=
          { member with
            deaf := e.deaf.or member.deaf
            mute := e.mute.or member.mute
            nick := e.nick
            roles := e.roles
            joined_at := some e.joined_at
            pending := e.pending }
        { s with members := upd s.members (e.guild_id, e.user.id) (some member2) }

/-- The events that drive the member core: the four gateway events plus the
internal caching entry points of the member module (the internal calls are
`pub(crate)` and not gated; `cache_user` always receives a guild id from
this core, per the spec). -/
inductive CacheEvent where
  | memberAdd (e : MemberAdd)
  | memberChunk (e : MemberChunk)
  | memberRemove (e : MemberRemove)
  | memberUpdate (e : MemberUpdate)
  | cacheMemberCall (g : GuildId) (m : Member)
  | cacheMembersCall (g : GuildId) (ms : List Member)
  | cachePartialMemberCall (g : GuildId) (p : PartialMember) (u : UserId)
  | cacheInteractionMemberCall (g : GuildId) (i : InteractionMember)
  | cacheUserCall (u : User) (g : GuildId)

/-- Apply one event to the cache under a fixed resource selector. -/
def applyEvent (c : ResourceSelector) (s : CacheState) : CacheEvent → CacheState
  | CacheEvent.memberAdd e => e.update c s
  | CacheEvent.memberChunk e => e.update c s
  | CacheEvent.memberRemove e => e.update c s
  | CacheEvent.memberUpdate e => e.update c s
  | CacheEvent.cacheMemberCall g m => cache_member s g m
  | CacheEvent.cacheMembersCall g ms => cache_members s g ms
  | CacheEvent.cachePartialMemberCall g p u => cache_borrowed_partial_member s g p u
  | CacheEvent.cacheInteractionMemberCall g i => cache_borrowed_interaction_member s g i
  | CacheEvent.cacheUserCall u g => cache_user s u g

/-- The cache states reachable from the empty cache by member events and
internal caching calls. -/
inductive Reachable (c : ResourceSelector) : CacheState → Prop where
  | empty : Reachable c emptyCache
  | step {s : CacheState} (ev : CacheEvent) : Reachable c s → Reachable c (applyEvent c s ev)

/-- The cross-structure invariant of §3: a member record exists at (g,u)
iff u is in the roster index entry of g, and a user record exists for u iff
the membership index entry of u is non-empty. -/
def CacheInv (s : CacheState) : Prop :=
  (∀ g u, (s.members (g, u)).isSome ↔ u ∈ roster s g) ∧
  (∀ u, (s.users u).isSome ↔ membership s u ≠ ∅)

/-! ### Characterizations of the operations as explicit state updates -/

theorem upd_upd {α β : Type} [DecidableEq α] (f : α → β) (k : α) (v w : β) :
    upd (upd f k v) k w = upd f k w := by
  funext x
  unfold upd
  split <;> rfl

/-- Insertion of one user id into a guild's roster index entry, creating
the entry when absent (`guild_members.entry(g).or_default().insert(u)`). -/
def rosterIns (s : CacheState) (g : GuildId) (u : UserId) : CacheState :=
  { s with
    guild_members := upd s.guild_members g
      (some (insert u ((s.guild_members g).getD ∅))) }

theorem cache_user_eq (s : CacheState) (user : User) (g : GuildId) :
    cache_user s user g =
      { s with
        users := upd s.users user.id (some user)
        user_guilds := upd s.user_guilds user.id
          (some (insert g ((s.user_guilds user.id).getD ∅))) } := rfl

theorem cache_member_store_eq (s : CacheState) (g : GuildId) (m : Member) :
    cache_member_store s g m =
      { members := upd s.members (g, m.user.id) (some (m.toCached g))
        users := upd s.users m.user.id (some m.user)
        guild_members := upd s.guild_members g
          (some (insert m.user.id ((s.guild_members g).getD ∅)))
        user_guilds := upd s.user_guilds m.user.id
          (some (insert g ((s.user_guilds m.user.id).getD ∅))) } := rfl

theorem cache_borrowed_partial_member_store_eq (s : CacheState) (g : GuildId)
    (m : PartialMember) (u : UserId) :
    cache_borrowed_partial_member_store s g m u =
      { members := upd s.members (g, u)
          (some { deaf := some m.deaf, guild_id := g, joined_at := m.joined_at,
                  mute := some m.mute, nick := m.nick, pending := false,
                  premium_since := none, roles := m.roles, user_id := u })
        users := s.users
        guild_members := upd s.guild_members g
          (some (insert u ((s.guild_members g).getD ∅)))
        user_guilds := s.user_guilds } := rfl

theorem cache_borrowed_interaction_member_store_eq (s : CacheState) (g : GuildId)
    (m : InteractionMember) (deaf mute : Option Bool) :
    cache_borrowed_interaction_member_store s g m deaf mute =
      { members := upd s.members (g, m.id)
          (some { deaf := deaf, guild_id := g, joined_at := m.joined_at,
                  mute := mute, nick := m.nick, pending := false,
                  premium_since := m.premium_since, roles := m.roles,
                  user_id := m.id })
        users := s.users
        guild_members := upd s.guild_members g
          (some (insert m.id ((s.guild_members g).getD ∅)))
        user_guilds := s.user_guilds } := rfl

theorem memberAdd_update_on (e : MemberAdd) (c : ResourceSelector) (s : CacheState)
    (h : wants c ResourceType.MEMBER = true) :
    e.update c s = rosterIns (cache_member s e.guild_id e.member) e.guild_id
      e.member.user.id := by
  unfold MemberAdd.update rosterIns
  rw [h]
  rfl

theorem memberAdd_update_off (e : MemberAdd) (c : ResourceSelector) (s : CacheState)
    (h : wants c ResourceType.MEMBER = false) : e.update c s = s := by
  unfold MemberAdd.update
  rw [h]
  rfl

theorem memberChunk_update_off (e : MemberChunk) (c : ResourceSelector)
    (s : CacheState) (h : wants c ResourceType.MEMBER = false) : e.update c s = s := by
  unfold MemberChunk.update
  rw [h]
  rfl

theorem memberRemove_update_off (e : MemberRemove) (c : ResourceSelector)
    (s : CacheState) (h : wants c ResourceType.MEMBER = false) : e.update c s = s := by
  unfold MemberRemove.update
  rw [h]
  rfl

theorem memberUpdate_update_off (e : MemberUpdate) (c : ResourceSelector)
    (s : CacheState) (h : wants c ResourceType.MEMBER = false) : e.update c s = s := by
  unfold MemberUpdate.update
  rw [h]
  rfl

/-- When the member is already cached and value-equal, `cache_member` is
the identity. -/
theorem cache_member_short_circuit (s : CacheState) (g : GuildId) (m : Member)
    {cm : CachedMember} (hc : s.members (g, m.user.id) = some cm)
    (he : cm.eqMember m) : cache_member s g m = s := by
  unfold cache_member
  rw [hc]
  simp [he]

/-- When no identical member is cached, `cache_member` runs the store body. -/
theorem cache_member_not_short_circuit (s : CacheState) (g : GuildId) (m : Member)
    (h : ∀ cm, s.members (g, m.user.id) = some cm → ¬ cm.eqMember m) :
    cache_member s g m = cache_member_store s g m := by
  unfold cache_member
  cases hc : s.members (g, m.user.id) with
  | none => rfl
  | some cm => simp [h cm hc]

/-- `cache_member` never changes the state outside the store body or the
identity: it is one of the two. -/
theorem cache_member_cases (s : CacheState) (g : GuildId) (m : Member) :
    cache_member s g m = s ∨ cache_member s g m = cache_member_store s g m := by
  unfold cache_member
  cases hc : s.members (g, m.user.id) with
  | none => exact Or.inr rfl
  | some cm =>
      by_cases he : cm.eqMember m
      · simp [he]
      · simp [he]

/-! ### Commutation of member caching with roster-index insertion
(the bridge between the bulk `MemberChunk` path and the per-member
`MemberAdd` path) -/

theorem cache_member_store_rosterIns_comm (s : CacheState) (g : GuildId)
    (u : UserId) (m : Member) :
    cache_member_store (rosterIns s g u) g m =
      rosterIns (cache_member_store s g m) g u := by
  rw [cache_member_store_eq, cache_member_store_eq]
  unfold rosterIns
  apply CacheState.ext
  · rfl
  · rfl
  · show upd (upd s.guild_members g (some (insert u ((s.guild_members g).getD ∅)))) g
        (some (insert m.user.id
          ((upd s.guild_members g (some (insert u ((s.guild_members g).getD ∅))) g).getD ∅)))
      = upd (upd s.guild_members g (some (insert m.user.id ((s.guild_members g).getD ∅)))) g
        (some (insert u
          ((upd s.guild_members g (some (insert m.user.id ((s.guild_members g).getD ∅))) g).getD ∅)))
    rw [upd_same, upd_same, upd_upd, upd_upd, Option.getD_some, Option.getD_some,
      Finset.Insert.comm]
  · rfl

theorem cache_member_rosterIns_comm (s : CacheState) (g : GuildId) (u : UserId)
    (m : Member) :
    cache_member (rosterIns s g u) g m = rosterIns (cache_member s g m) g u := by
  have hmem : (rosterIns s g u).members = s.members := rfl
  unfold cache_member
  rw [hmem]
  cases hc : s.members (g, m.user.id) with
  | some cm =>
      by_cases he : cm.eqMember m
      · simp only [he, if_true]
      · simp only [he, if_false]
        exact cache_member_store_rosterIns_comm s g u m
  | none => exact cache_member_store_rosterIns_comm s g u m

theorem cache_members_rosterIns_comm (s : CacheState) (g : GuildId) (u : UserId)
    (ms : List Member) :
    cache_members (rosterIns s g u) g ms = rosterIns (cache_members s g ms) g u := by
  induction ms generalizing s with
  | nil => rfl
  | cons m rest ih =>
      show cache_members (cache_member (rosterIns s g u) g m) g rest
        = rosterIns (cache_members (cache_member s g m) g rest) g u
      rw [cache_member_rosterIns_comm, ih]

/-- The bulk roster extension performed by the `MemberChunk` handler:
one `or_default` entry access followed by `extend` over all user ids of the
batch. -/
def chunkExtend (s : CacheState) (g : GuildId) (ms : List Member) : CacheState :=
  { s with
    guild_members := upd s.guild_members g
      (some (ms.foldl (fun acc m => insert m.user.id acc)
        ((s.guild_members g).getD ∅))) }

theorem chunkExtend_cons (s : CacheState) (g : GuildId) (m : Member)
    (ms : List Member) :
    chunkExtend s g (m :: ms) = chunkExtend (rosterIns s g m.user.id) g ms := by
  unfold chunkExtend rosterIns
  apply CacheState.ext
  · rfl
  · rfl
  · show upd s.guild_members g
        (some (ms.foldl (fun acc m => insert m.user.id acc)
          (insert m.user.id ((s.guild_members g).getD ∅))))
      = upd (upd s.guild_members g (some (insert m.user.id ((s.guild_members g).getD ∅)))) g
        (some (ms.foldl (fun acc m => insert m.user.id acc)
          ((upd s.guild_members g (some (insert m.user.id ((s.guild_members g).getD ∅))) g).getD ∅)))
    rw [upd_same, upd_upd, Option.getD_some]
  · rfl

theorem chunkExtend_eq_foldl_rosterIns (g : GuildId) (ms : List Member)
    (hne : ms ≠ []) (s : CacheState) :
    chunkExtend s g ms = ms.foldl (fun t m => rosterIns t g m.user.id) s := by
  induction ms generalizing s with
  | nil => exact absurd rfl hne
  | cons m rest ih =>
      cases rest with
      | nil =>
          show chunkExtend s g [m] = rosterIns s g m.user.id
          rfl
      | cons m2 rest2 =>
          rw [chunkExtend_cons]
          rw [ih (by simp) (rosterIns s g m.user.id)]
          rfl

theorem memberChunk_update_on (e : MemberChunk) (c : ResourceSelector)
    (s : CacheState) (h : wants c ResourceType.MEMBER = true)
    (hne : e.members ≠ []) :
    e.update c s =
      chunkExtend (cache_members s e.guild_id e.members) e.guild_id e.members := by
  have hemp : e.members.isEmpty = false := by
    cases hm : e.members with
    | nil => exact absurd hm hne
    | cons a l => rfl
  unfold MemberChunk.update
  rw [h, hemp]
  rfl

/-- With the member resource ungated, the fold of per-member adds is the
identity. -/
theorem foldl_memberAdd_off (c : ResourceSelector) (g : GuildId)
    (h : wants c ResourceType.MEMBER = false) (ms : List Member) (s : CacheState) :
    ms.foldl (fun t m => MemberAdd.update { guild_id := g, member := m } c t) s = s := by
  induction ms generalizing s with
  | nil => rfl
  | cons m rest ih =>
      show rest.foldl _ (MemberAdd.update { guild_id := g, member := m } c s) = s
      rw [memberAdd_update_off _ _ _ h, ih]

/-- With the member resource gated in, the fold of per-member adds equals
the bulk cache followed by the fold of roster insertions. -/
theorem foldl_memberAdd_on (c : ResourceSelector) (g : GuildId)
    (h : wants c ResourceType.MEMBER = true) (ms : List Member) (s : CacheState) :
    ms.foldl (fun t m => MemberAdd.update { guild_id := g, member := m } c t) s =
      ms.foldl (fun t m => rosterIns t g m.user.id) (cache_members s g ms) := by
  induction ms generalizing s with
  | nil => rfl
  | cons m rest ih =>
      show rest.foldl _ (MemberAdd.update { guild_id := g, member := m } c s)
        = rest.foldl (fun t m => rosterIns t g m.user.id)
            (rosterIns (cache_members (cache_member s g m) g rest) g m.user.id)
      rw [memberAdd_update_on _ _ _ h, ih, cache_members_rosterIns_comm]

/-- The `MemberChunk` handler is extensionally the fold of the
`MemberAdd` handler over the batch, in order. -/
theorem memberChunk_eq_foldl_memberAdd (e : MemberChunk) (c : ResourceSelector)
    (s : CacheState) :
    e.update c s =
      e.members.foldl
        (fun t m => MemberAdd.update { guild_id := e.guild_id, member := m } c t) s := by
  cases h : wants c ResourceType.MEMBER with
  | false => rw [memberChunk_update_off _ _ _ h, foldl_memberAdd_off _ _ h]
  | true =>
      cases hm : e.members with
      | nil =>
          unfold MemberChunk.update
          rw [h, hm]
          rfl
      | cons m rest =>
          rw [memberChunk_update_on _ _ _ h (by rw [hm]; exact List.cons_ne_nil m rest)]
          rw [foldl_memberAdd_on _ _ h]
          rw [chunkExtend_eq_foldl_rosterIns _ _ (by rw [hm]; exact List.cons_ne_nil m rest)]
          rw [hm]

/-! ### Characterization of the `MemberRemove` handler by index-entry shape -/

theorem memberRemove_update_some_some (e : MemberRemove) (c : ResourceSelector)
    (s : CacheState) (ms : Finset UserId) (gs : Finset GuildId)
    (h : wants c ResourceType.MEMBER = true)
    (hgm : s.guild_members e.guild_id = some ms)
    (hug : s.user_guilds e.user.id = some gs) :
    e.update c s =
      { members := upd s.members (e.guild_id, e.user.id) none
        users := if gs.erase e.guild_id = ∅ then upd s.users e.user.id none else s.users
        guild_members := upd s.guild_members e.guild_id (some (ms.erase e.user.id))
        user_guilds := upd s.user_guilds e.user.id (some (gs.erase e.guild_id)) } := by
  unfold MemberRemove.update
  rw [h]
  simp only [Bool.not_true, Bool.false_eq_true, if_false, hgm, hug]
  split <;> rfl

theorem memberRemove_update_some_none (e : MemberRemove) (c : ResourceSelector)
    (s : CacheState) (ms : Finset UserId)
    (h : wants c ResourceType.MEMBER = true)
    (hgm : s.guild_members e.guild_id = some ms)
    (hug : s.user_guilds e.user.id = none) :
    e.update c s =
      { members := upd s.members (e.guild_id, e.user.id) none
        users := s.users
        guild_members := upd s.guild_members e.guild_id (some (ms.erase e.user.id))
        user_guilds := s.user_guilds } := by
  unfold MemberRemove.update
  rw [h]
  simp only [Bool.not_true, Bool.false_eq_true, if_false, hgm, hug]

theorem memberRemove_update_none_some (e : MemberRemove) (c : ResourceSelector)
    (s : CacheState) (gs : Finset GuildId)
    (h : wants c ResourceType.MEMBER = true)
    (hgm : s.guild_members e.guild_id = none)
    (hug : s.user_guilds e.user.id = some gs) :
    e.update c s =
      { members := upd s.members (e.guild_id, e.user.id) none
        users := if gs.erase e.guild_id = ∅ then upd s.users e.user.id none else s.users
        guild_members := s.guild_members
        user_guilds := upd s.user_guilds e.user.id (some (gs.erase e.guild_id)) } := by
  unfold MemberRemove.update
  rw [h]
  simp only [Bool.not_true, Bool.false_eq_true, if_false, hgm, hug]
  split <;> rfl

theorem memberRemove_update_none_none (e : MemberRemove) (c : ResourceSelector)
    (s : CacheState)
    (h : wants c ResourceType.MEMBER = true)
    (hgm : s.guild_members e.guild_id = none)
    (hug : s.user_guilds e.user.id = none) :
    e.update c s =
      { members := upd s.members (e.guild_id, e.user.id) none
        users := s.users
        guild_members := s.guild_members
        user_guilds := s.user_guilds } := by
  unfold MemberRemove.update
  rw [h]
  simp only [Bool.not_true, Bool.false_eq_true, if_false, hgm, hug]

/-! ### Preservation of the cross-structure invariant -/

theorem inv_cache_user (s : CacheState) (user : User) (g : GuildId)
    (h : CacheInv s) : CacheInv (cache_user s user g) := by
  obtain ⟨h1, h2⟩ := h
  constructor
  · exact h1
  · intro u
    show ((upd s.users user.id (some user)) u).isSome ↔
      ((upd s.user_guilds user.id
        (some (insert g ((s.user_guilds user.id).getD ∅)))) u).getD ∅ ≠ ∅
    by_cases hu : u = user.id
    · subst hu
      rw [upd_same, upd_same]
      simp [Finset.insert_ne_empty]
    · rw [upd_ne _ _ hu, upd_ne _ _ hu]
      exact h2 u

/-- Core step for the member-table / roster-index biconditional: writing a
member at `(g, u)` while inserting `u` into the roster entry of `g`
preserves it. -/
theorem inv_fst_insert {members : GuildId × UserId → Option CachedMember}
    {gm : GuildId → Option (Finset UserId)} {g : GuildId} {u : UserId}
    (cm : CachedMember)
    (h1 : ∀ g' u', (members (g', u')).isSome ↔ u' ∈ (gm g').getD ∅) :
    ∀ g' u', ((upd members (g, u) (some cm)) (g', u')).isSome ↔
      u' ∈ ((upd gm g (some (insert u ((gm g).getD ∅)))) g').getD ∅ := by
  intro g' u'
  by_cases hk : (g', u') = (g, u)
  · obtain ⟨hg, hu⟩ := Prod.mk.injEq .. ▸ hk
    subst hg; subst hu
    rw [upd_same, upd_same]
    simp [Finset.mem_insert_self]
  · rw [upd_ne _ _ hk]
    by_cases hg : g' = g
    · subst hg
      have hu : u' ≠ u := fun hu => hk (by rw [hu])
      rw [upd_same]
      simp only [Option.getD_some, Finset.mem_insert]
      rw [h1 g' u']
      constructor
      · intro hm; exact Or.inr hm
      · intro hm; cases hm with
        | inl he => exact absurd he hu
        | inr hm => exact hm
    · rw [upd_ne _ _ hg]
      exact h1 g' u'

theorem inv_cache_member_store (s : CacheState) (g : GuildId) (m : Member)
    (h : CacheInv s) : CacheInv (cache_member_store s g m) := by
  rw [cache_member_store_eq]
  obtain ⟨h1, h2⟩ := inv_cache_user s m.user g h
  constructor
  · exact inv_fst_insert (m.toCached g) h1
  · exact h2

theorem inv_cache_member (s : CacheState) (g : GuildId) (m : Member)
    (h : CacheInv s) : CacheInv (cache_member s g m) := by
  cases cache_member_cases s g m with
  | inl he => rw [he]; exact h
  | inr he => rw [he]; exact inv_cache_member_store s g m h

theorem inv_cache_members (s : CacheState) (g : GuildId) (ms : List Member)
    (h : CacheInv s) : CacheInv (cache_members s g ms) := by
  induction ms generalizing s with
  | nil => exact h
  | cons m rest ih =>
      show CacheInv (cache_members (cache_member s g m) g rest)
      exact ih _ (inv_cache_member s g m h)

theorem inv_cache_borrowed_partial_member (s : CacheState) (g : GuildId)
    (m : PartialMember) (u : UserId) (h : CacheInv s) :
    CacheInv (cache_borrowed_partial_member s g m u) := by
  unfold cache_borrowed_partial_member
  obtain ⟨h1, h2⟩ := h
  cases hc : s.members (g, u) with
  | some cm =>
      by_cases he : cm.eqPartialMember m
      · simp only [he, if_true]
        exact ⟨h1, h2⟩
      · simp only [he, if_false]
        rw [cache_borrowed_partial_member_store_eq]
        exact ⟨inv_fst_insert _ h1, h2⟩
  | none =>
      rw [cache_borrowed_partial_member_store_eq]
      exact ⟨inv_fst_insert _ h1, h2⟩

theorem inv_cache_borrowed_interaction_member (s : CacheState) (g : GuildId)
    (m : InteractionMember) (h : CacheInv s) :
    CacheInv (cache_borrowed_interaction_member s g m) := by
  unfold cache_borrowed_interaction_member
  obtain ⟨h1, h2⟩ := h
  cases hc : s.members (g, m.id) with
  | some cm =>
      by_cases he : cm.eqInteractionMember m
      · simp only [he, if_true]
        exact ⟨h1, h2⟩
      · simp only [he, if_false]
        rw [cache_borrowed_interaction_member_store_eq]
        exact ⟨inv_fst_insert _ h1, h2⟩
  | none =>
      rw [cache_borrowed_interaction_member_store_eq]
      exact ⟨inv_fst_insert _ h1, h2⟩

theorem cache_member_isSome (s : CacheState) (g : GuildId) (m : Member) :
    ((cache_member s g m).members (g, m.user.id)).isSome := by
  unfold cache_member
  cases hc : s.members (g, m.user.id) with
  | some cm =>
      by_cases he : cm.eqMember m
      · simp only [he, if_true]
        rw [hc]
        rfl
      · simp only [he, if_false]
        rw [cache_member_store_eq]
        show ((upd s.members (g, m.user.id) (some (m.toCached g))) (g, m.user.id)).isSome
        rw [upd_same]
        rfl
  | none =>
      rw [cache_member_store_eq]
      show ((upd s.members (g, m.user.id) (some (m.toCached g))) (g, m.user.id)).isSome
      rw [upd_same]
      rfl

theorem inv_rosterIns (s : CacheState) (g : GuildId) (u : UserId)
    (h : CacheInv s) (hm : (s.members (g, u)).isSome) :
    CacheInv (rosterIns s g u) := by
  obtain ⟨h1, h2⟩ := h
  constructor
  · intro g' u'
    show (s.members (g', u')).isSome ↔
      u' ∈ ((upd s.guild_members g (some (insert u ((s.guild_members g).getD ∅)))) g').getD ∅
    by_cases hg : g' = g
    · subst hg
      rw [upd_same]
      simp only [Option.getD_some, Finset.mem_insert]
      by_cases hu : u' = u
      · subst hu
        simp [hm]
      · rw [h1 g' u']
        constructor
        · intro hmem; exact Or.inr hmem
        · intro hmem; cases hmem with
          | inl he => exact absurd he hu
          | inr hmem => exact hmem
    · rw [upd_ne _ _ hg]
      exact h1 g' u'
  · exact h2

theorem inv_memberAdd (e : MemberAdd) (c : ResourceSelector) (s : CacheState)
    (h : CacheInv s) : CacheInv (e.update c s) := by
  cases hw : wants c ResourceType.MEMBER with
  | false => rw [memberAdd_update_off _ _ _ hw]; exact h
  | true =>
      rw [memberAdd_update_on _ _ _ hw]
      exact inv_rosterIns _ _ _ (inv_cache_member _ _ _ h)
        (cache_member_isSome s e.guild_id e.member)

theorem inv_memberChunk (e : MemberChunk) (c : ResourceSelector) (s : CacheState)
    (h : CacheInv s) : CacheInv (e.update c s) := by
  rw [memberChunk_eq_foldl_memberAdd]
  induction e.members generalizing s with
  | nil => exact h
  | cons m rest ih =>
      show CacheInv (rest.foldl _ (MemberAdd.update { guild_id := e.guild_id, member := m } c s))
      exact ih _ (inv_memberAdd _ c s h)

theorem inv_memberUpdate (e : MemberUpdate) (c : ResourceSelector) (s : CacheState)
    (h : CacheInv s) : CacheInv (e.update c s) := by
  cases hw : wants c ResourceType.MEMBER with
  | false => rw [memberUpdate_update_off _ _ _ hw]; exact h
  | true =>
      unfold MemberUpdate.update
      rw [hw]
      simp only [Bool.not_true, Bool.false_eq_true, if_false]
      cases hc : s.members (e.guild_id, e.user.id) with
      | none => exact h
      | some member =>
          obtain ⟨h1, h2⟩ := h
          constructor
          · intro g' u'
            show ((upd s.members (e.guild_id, e.user.id) _) (g', u')).isSome ↔
              u' ∈ (s.guild_members g').getD ∅
            by_cases hk : (g', u') = (e.guild_id, e.user.id)
            · have hg : g' = e.guild_id := congrArg Prod.fst hk
              have hu : u' = e.user.id := congrArg Prod.snd hk
              subst hg; subst hu
              rw [upd_same]
              simp only [Option.isSome_some, true_iff]
              exact (h1 _ _).mp (by rw [hc]; rfl)
            · rw [upd_ne _ _ hk]
              exact h1 g' u'
          · exact h2

theorem inv_memberRemove (e : MemberRemove) (c : ResourceSelector) (s : CacheState)
    (h : CacheInv s) : CacheInv (e.update c s) := by
  cases hw : wants c ResourceType.MEMBER with
  | false => rw [memberRemove_update_off _ _ _ hw]; exact h
  | true =>
      obtain ⟨h1, h2⟩ := h
      have hmem : ∀ g' u',
          ((upd s.members (e.guild_id, e.user.id) none) (g', u')).isSome ↔
            u' ∈ (s.guild_members g').getD ∅ ∧ ¬(g' = e.guild_id ∧ u' = e.user.id) := by
        intro g' u'
        by_cases hk : (g', u') = (e.guild_id, e.user.id)
        · have hg : g' = e.guild_id := congrArg Prod.fst hk
          have hu : u' = e.user.id := congrArg Prod.snd hk
          subst hg; subst hu
          rw [upd_same]
          simp
        · rw [upd_ne _ _ hk]
          rw [h1 g' u']
          have hne : ¬(g' = e.guild_id ∧ u' = e.user.id) := by
            intro hand
            exact hk (by rw [hand.1, hand.2])
          simp [roster, hne]
      have husers_part : ∀ (gs : Finset GuildId),
          s.user_guilds e.user.id = some gs →
          ∀ u, ((if gs.erase e.guild_id = ∅ then upd s.users e.user.id none
                  else s.users) u).isSome ↔
            ((upd s.user_guilds e.user.id (some (gs.erase e.guild_id))) u).getD ∅ ≠ ∅ := by
        intro gs hug u
        by_cases hu : u = e.user.id
        · subst hu
          rw [upd_same]
          simp only [Option.getD_some]
          by_cases hemp : gs.erase e.guild_id = ∅
          · rw [if_pos hemp, upd_same]
            simp [hemp]
          · rw [if_neg hemp]
            simp only [hemp, ne_eq, not_false_iff, iff_true]
            have hms : membership s e.user.id ≠ ∅ := by
              unfold membership
              rw [hug]
              simp only [Option.getD_some]
              intro habs
              exact hemp (by rw [habs]; exact Finset.erase_empty e.guild_id)
            exact (h2 e.user.id).mpr hms
        · rw [upd_ne _ _ hu]
          have heq : (if gs.erase e.guild_id = ∅ then upd s.users e.user.id none
              else s.users) u = s.users u := by
            split
            · exact upd_ne _ _ hu
            · rfl
          rw [heq]
          exact h2 u
      have hroster_part : ∀ (ms : Finset UserId),
          s.guild_members e.guild_id = some ms →
          ∀ g' u', ((upd s.members (e.guild_id, e.user.id) none) (g', u')).isSome ↔
            u' ∈ ((upd s.guild_members e.guild_id (some (ms.erase e.user.id))) g').getD ∅ := by
        intro ms hgm g' u'
        rw [hmem g' u']
        by_cases hg : g' = e.guild_id
        · subst hg
          rw [upd_same, hgm]
          simp only [Option.getD_some, Finset.mem_erase, eq_self_iff_true, true_and]
          tauto
        · rw [upd_ne _ _ hg]
          have hne : ¬(g' = e.guild_id ∧ u' = e.user.id) := fun hand => hg hand.1
          simp [hne]
      have hroster_none : s.guild_members e.guild_id = none →
          ∀ g' u', ((upd s.members (e.guild_id, e.user.id) none) (g', u')).isSome ↔
            u' ∈ (s.guild_members g').getD ∅ := by
        intro hgm g' u'
        rw [hmem g' u']
        by_cases hg : g' = e.guild_id
        · subst hg
          rw [hgm]
          simp
        · have hne : ¬(g' = e.guild_id ∧ u' = e.user.id) := fun hand => hg hand.1
          simp [hne]
      cases hgm : s.guild_members e.guild_id with
      | some ms =>
          cases hug : s.user_guilds e.user.id with
          | some gs =>
              rw [memberRemove_update_some_some e c s ms gs hw hgm hug]
              exact ⟨hroster_part ms hgm, husers_part gs hug⟩
          | none =>
              rw [memberRemove_update_some_none e c s ms hw hgm hug]
              exact ⟨hroster_part ms hgm, h2⟩
      | none =>
          cases hug : s.user_guilds e.user.id with
          | some gs =>
              rw [memberRemove_update_none_some e c s gs hw hgm hug]
              exact ⟨hroster_none hgm, husers_part gs hug⟩
          | none =>
              rw [memberRemove_update_none_none e c s hw hgm hug]
              exact ⟨hroster_none hgm, h2⟩

theorem inv_empty : CacheInv emptyCache := by
  constructor
  · intro g u
    simp [emptyCache, roster]
  · intro u
    simp [emptyCache, membership]

theorem inv_applyEvent (c : ResourceSelector) (s : CacheState) (ev : CacheEvent)
    (h : CacheInv s) : CacheInv (applyEvent c s ev) := by
  cases ev with
  | memberAdd e => exact inv_memberAdd e c s h
  | memberChunk e => exact inv_memberChunk e c s h
  | memberRemove e => exact inv_memberRemove e c s h
  | memberUpdate e => exact inv_memberUpdate e c s h
  | cacheMemberCall g m => exact inv_cache_member s g m h
  | cacheMembersCall g ms => exact inv_cache_members s g ms h
  | cachePartialMemberCall g p u => exact inv_cache_borrowed_partial_member s g p u h
  | cacheInteractionMemberCall g i => exact inv_cache_borrowed_interaction_member s g i h
  | cacheUserCall u g => exact inv_cache_user s u g h

theorem inv_reachable (c : ResourceSelector) (s : CacheState)
    (h : Reachable c s) : CacheInv s := by
  induction h with
  | empty => exact inv_empty
  | step ev _ ih => exact inv_applyEvent c _ ev ih

/-! ### Further characterizations used by the claim theorems -/

theorem memberUpdate_update_on (e : MemberUpdate) (c : ResourceSelector)
    (s : CacheState) (m : CachedMember)
    (hw : wants c ResourceType.MEMBER = true)
    (hc : s.members (e.guild_id, e.user.id) = some m) :
    e.update c s =
      { s with
        members := upd s.members (e.guild_id, e.user.id)
          (some { m with
            deaf := e.deaf.or m.deaf
            mute := e.mute.or m.mute
            nick := e.nick
            roles := e.roles
            joined_at := some e.joined_at
            pending := e.pending }) } := by
  unfold MemberUpdate.update
  rw [hw]
  simp only [Bool.not_true, Bool.false_eq_true, if_false, hc]

theorem memberUpdate_update_miss (e : MemberUpdate) (c : ResourceSelector)
    (s : CacheState) (hc : s.members (e.guild_id, e.user.id) = none) :
    e.update c s = s := by
  cases hw : wants c ResourceType.MEMBER with
  | false => exact memberUpdate_update_off e c s hw
  | true =>
      unfold MemberUpdate.update
      rw [hw]
      simp only [Bool.not_true, Bool.false_eq_true, if_false, hc]

/-- Inserting a user id that is already in an existing roster entry changes
nothing. -/
theorem rosterIns_id (s : CacheState) (g : GuildId) (u : UserId)
    (R : Finset UserId) (hgm : s.guild_members g = some R) (hin : u ∈ R) :
    rosterIns s g u = s := by
  unfold rosterIns
  apply CacheState.ext
  · rfl
  · rfl
  · show upd s.guild_members g (some (insert u ((s.guild_members g).getD ∅)))
      = s.guild_members
    rw [hgm]
    simp only [Option.getD_some]
    rw [Finset.insert_eq_self.mpr hin, ← hgm]
    exact upd_self s.guild_members g
  · rfl

/-- What `MemberRemove` does to the membership index entry and the User
record of the removed user, when a membership entry exists. -/
theorem memberRemove_membership_users (e : MemberRemove) (c : ResourceSelector)
    (s : CacheState) (gs : Finset GuildId)
    (hw : wants c ResourceType.MEMBER = true)
    (hug : s.user_guilds e.user.id = some gs) :
    (e.update c s).user_guilds e.user.id = some (gs.erase e.guild_id) ∧
    (e.update c s).users e.user.id =
      (if gs.erase e.guild_id = ∅ then none else s.users e.user.id) := by
  cases hgm : s.guild_members e.guild_id with
  | some ms =>
      rw [memberRemove_update_some_some e c s ms gs hw hgm hug]
      refine ⟨upd_same .., ?_⟩
      show (if gs.erase e.guild_id = ∅ then upd s.users e.user.id none else s.users)
          e.user.id = _
      split
      · exact upd_same ..
      · rfl
  | none =>
      rw [memberRemove_update_none_some e c s gs hw hgm hug]
      refine ⟨upd_same .., ?_⟩
      show (if gs.erase e.guild_id = ∅ then upd s.users e.user.id none else s.users)
          e.user.id = _
      split
      · exact upd_same ..
      · rfl

/-! ### Concrete example values for witnesses -/

/-- A selector with every resource kind included. -/
def allResources : ResourceSelector := fun _ => true

/-- A selector with no resource kind included. -/
def noResources : ResourceSelector := fun _ => false

def exUser : User := { id := 7, name := "u7" }

def exMember : Member :=
  { user := exUser, deaf := false, joined_at := some "t0", mute := true,
    nick := some "n", pending := false, premium_since := none, roles := [3, 5] }

def exAdd : MemberAdd := { guild_id := 1, member := exMember }

def exRemove : MemberRemove := { guild_id := 1, user := exUser }

/-- The cache after `MemberAdd` of `exMember` into guild 1. -/
def exState1 : CacheState :=
  applyEvent allResources emptyCache (CacheEvent.memberAdd exAdd)

/-- The cache after adding and then removing `exMember`. -/
def exState2 : CacheState :=
  applyEvent allResources exState1 (CacheEvent.memberRemove exRemove)

/-! ### The claims -/

/-- C1: for every cache state reachable from the empty cache by member
events and internal caching calls, a Member record exists at (g,u) iff u is
in the roster index entry for g, and a User record exists for u iff the
membership index entry for u is non-empty. -/
theorem C1_reachable_index_invariant (c : ResourceSelector) (s : CacheState)
    (h : Reachable c s) :
    (∀ g u, (s.members (g, u)).isSome ↔ u ∈ roster s g) ∧
    (∀ u, (s.users u).isSome ↔ membership s u ≠ ∅) :=
  inv_reachable c s h

theorem C1_reachable_index_invariant_witness :
    (exState1.members (1, 7)).isSome ↔ 7 ∈ roster exState1 1 :=
  (C1_reachable_index_invariant allResources exState1
    (Reachable.step (CacheEvent.memberAdd exAdd) Reachable.empty)).1 1 7

/-- C2: applying a `MemberAdd` whose member is value-equal to the member
already cached at (guild_id, member.user.id) leaves the entire cache state
unchanged. -/
theorem C2_memberAdd_idempotent (c : ResourceSelector) (s : CacheState)
    (e : MemberAdd) (m : CachedMember) (hr : Reachable c s)
    (hc : s.members (e.guild_id, e.member.user.id) = some m)
    (he : m.eqMember e.member) :
    e.update c s = s := by
  cases hw : wants c ResourceType.MEMBER with
  | false => exact memberAdd_update_off e c s hw
  | true =>
      rw [memberAdd_update_on e c s hw, cache_member_short_circuit s _ _ hc he]
      obtain ⟨h1, _⟩ := inv_reachable c s hr
      have hin : e.member.user.id ∈ roster s e.guild_id :=
        (h1 _ _).mp (by rw [hc]; rfl)
      cases hgm : s.guild_members e.guild_id with
      | none =>
          unfold roster at hin
          rw [hgm] at hin
          simp at hin
      | some R =>
          refine rosterIns_id s _ _ R hgm ?_
          unfold roster at hin
          rw [hgm] at hin
          simpa using hin

theorem C2_memberAdd_idempotent_witness :
    MemberAdd.update exAdd allResources exState1 = exState1 :=
  C2_memberAdd_idempotent allResources exState1 exAdd (exMember.toCached 1)
    (Reachable.step (CacheEvent.memberAdd exAdd) Reachable.empty)
    (by decide) (by decide)

/-- C4: a `MemberUpdate` for a (guild_id, user.id) pair with no cached
Member record is dropped: the cache state is unchanged. -/
theorem C4_memberUpdate_unknown_dropped (c : ResourceSelector) (s : CacheState)
    (e : MemberUpdate) (hc : s.members (e.guild_id, e.user.id) = none) :
    e.update c s = s :=
  memberUpdate_update_miss e c s hc

theorem C4_memberUpdate_unknown_dropped_witness :
    MemberUpdate.update
      { guild_id := 2, user := exUser, deaf := some true, mute := none,
        nick := none, roles := [], joined_at := "t3", pending := false }
      allResources exState1 = exState1 :=
  C4_memberUpdate_unknown_dropped allResources exState1 _ (by decide)

/-- C6: a `MemberChunk` carrying a list of members yields the state of
applying the single-member `MemberAdd` path to each member in the same
order, and a chunk with an empty member list leaves the state unchanged. -/
theorem C6_chunk_equals_sequential_adds (e : MemberChunk) (c : ResourceSelector)
    (s : CacheState) (g' : GuildId) :
    e.update c s =
      e.members.foldl
        (fun t m => MemberAdd.update { guild_id := e.guild_id, member := m } c t) s ∧
    MemberChunk.update { guild_id := g', members := [] } c s = s := by
  constructor
  · exact memberChunk_eq_foldl_memberAdd e c s
  · cases hw : wants c ResourceType.MEMBER with
    | false => exact memberChunk_update_off _ c s hw
    | true =>
        unfold MemberChunk.update
        rw [hw]
        rfl

/-- C9: with the member resource kind not included in the configured
selector, every member event leaves the cache state unchanged. -/
theorem C9_resource_gate_drops_events (c : ResourceSelector) (s : CacheState)
    (h : wants c ResourceType.MEMBER = false) :
    (∀ e : MemberAdd, e.update c s = s) ∧
    (∀ e : MemberChunk, e.update c s = s) ∧
    (∀ e : MemberRemove, e.update c s = s) ∧
    (∀ e : MemberUpdate, e.update c s = s) :=
  ⟨fun e => memberAdd_update_off e c s h,
   fun e => memberChunk_update_off e c s h,
   fun e => memberRemove_update_off e c s h,
   fun e => memberUpdate_update_off e c s h⟩

theorem C9_resource_gate_drops_events_witness :
    MemberAdd.update exAdd noResources exState1 = exState1 :=
  (C9_resource_gate_drops_events noResources exState1 (by decide)).1 exAdd

/-- A cached member with `mute := some true, deaf := some false`, installed
at key (1,7), for the partial-update scenario. -/
def exCached3 : CachedMember :=
  { deaf := some false, guild_id := 1, joined_at := some "t0", mute := some true,
    nick := some "n", pending := false, premium_since := none, roles := [3],
    user_id := 7 }

def exState3 : CacheState :=
  { members := upd (fun _ => none) (1, 7) (some exCached3)
    users := fun _ => none
    guild_members := upd (fun _ => none) 1 (some {7})
    user_guilds := fun _ => none }

/-- An update event supplying only `deaf := some true` of the two optional
flags. -/
def exUpdate3 : MemberUpdate :=
  { guild_id := 1, user := exUser, deaf := some true, mute := none,
    nick := some "n2", roles := [4], joined_at := "t4", pending := true }

/-- C3: a `MemberUpdate` applied to a cached member merges: deaf and mute
take the event value when supplied and otherwise retain the prior cached
value, while nick, roles, pending and the join timestamp are overwritten
with the event values. -/
theorem C3_memberUpdate_merge (c : ResourceSelector) (s : CacheState)
    (e : MemberUpdate) (m : CachedMember)
    (hw : wants c ResourceType.MEMBER = true)
    (hc : s.members (e.guild_id, e.user.id) = some m) :
    ∃ m', (e.update c s).members (e.guild_id, e.user.id) = some m' ∧
      (∀ b, e.deaf = some b → m'.deaf = some b) ∧
      (e.deaf = none → m'.deaf = m.deaf) ∧
      (∀ b, e.mute = some b → m'.mute = some b) ∧
      (e.mute = none → m'.mute = m.mute) ∧
      m'.nick = e.nick ∧ m'.roles = e.roles ∧
      m'.pending = e.pending ∧ m'.joined_at = some e.joined_at := by
  rw [memberUpdate_update_on e c s m hw hc]
  refine ⟨_, upd_same .., ?_, ?_, ?_, ?_, rfl, rfl, rfl, rfl⟩
  · intro b hb
    show e.deaf.or m.deaf = some b
    rw [hb]
    rfl
  · intro hb
    show e.deaf.or m.deaf = m.deaf
    rw [hb]
    rfl
  · intro b hb
    show e.mute.or m.mute = some b
    rw [hb]
    rfl
  · intro hb
    show e.mute.or m.mute = m.mute
    rw [hb]
    rfl

theorem C3_memberUpdate_merge_witness :
    ∃ m', (MemberUpdate.update exUpdate3 allResources exState3).members (1, 7) = some m' ∧
      (∀ b, exUpdate3.deaf = some b → m'.deaf = some b) ∧
      (exUpdate3.deaf = none → m'.deaf = exCached3.deaf) ∧
      (∀ b, exUpdate3.mute = some b → m'.mute = some b) ∧
      (exUpdate3.mute = none → m'.mute = exCached3.mute) ∧
      m'.nick = exUpdate3.nick ∧ m'.roles = exUpdate3.roles ∧
      m'.pending = exUpdate3.pending ∧ m'.joined_at = some exUpdate3.joined_at :=
  C3_memberUpdate_merge allResources exState3 exUpdate3 exCached3
    (by decide) (by decide)

/-- C5: for a user cached as a member of exactly guilds A and B, removing
membership in A keeps the User record and leaves membership {B}; then
removing membership in B deletes the User record and leaves membership
empty. -/
theorem C5_cascade_delete (c : ResourceSelector) (s : CacheState) (w : User)
    (A B : GuildId) (hw : wants c ResourceType.MEMBER = true) (hAB : A ≠ B)
    (hu : (s.users w.id).isSome)
    (hm : s.user_guilds w.id = some {A, B}) :
    ((MemberRemove.update { guild_id := A, user := w } c s).users w.id).isSome ∧
    membership (MemberRemove.update { guild_id := A, user := w } c s) w.id = {B} ∧
    (MemberRemove.update { guild_id := B, user := w } c
        (MemberRemove.update { guild_id := A, user := w } c s)).users w.id = none ∧
    membership (MemberRemove.update { guild_id := B, user := w } c
        (MemberRemove.update { guild_id := A, user := w } c s)) w.id = ∅ := by
  have hAe : ({A, B} : Finset GuildId).erase A = {B} :=
    Finset.erase_insert (by simp [hAB])
  obtain ⟨hug1, hus1⟩ :=
    memberRemove_membership_users { guild_id := A, user := w } c s {A, B} hw hm
  rw [hAe] at hug1 hus1
  rw [if_neg (Finset.singleton_ne_empty B)] at hus1
  obtain ⟨hug2, hus2⟩ :=
    memberRemove_membership_users { guild_id := B, user := w } c _ {B} hw hug1
  rw [Finset.erase_singleton B] at hug2 hus2
  rw [if_pos rfl] at hus2
  refine ⟨?_, ?_, hus2, ?_⟩
  · rw [hus1]; exact hu
  · unfold membership; rw [hug1]; rfl
  · unfold membership; rw [hug2]; rfl

def exState5 : CacheState :=
  { members := fun _ => none
    users := upd (fun _ => none) 7 (some exUser)
    guild_members := fun _ => none
    user_guilds := upd (fun _ => none) 7 (some {1, 2}) }

theorem C5_cascade_delete_witness :
    ((MemberRemove.update { guild_id := 1, user := exUser } allResources exState5).users 7).isSome ∧
    membership (MemberRemove.update { guild_id := 1, user := exUser } allResources exState5) 7 = {2} ∧
    (MemberRemove.update { guild_id := 2, user := exUser } allResources
        (MemberRemove.update { guild_id := 1, user := exUser } allResources exState5)).users 7 = none ∧
    membership (MemberRemove.update { guild_id := 2, user := exUser } allResources
        (MemberRemove.update { guild_id := 1, user := exUser } allResources exState5)) 7 = ∅ :=
  C5_cascade_delete allResources exState5 exUser 1 2 (by decide) (by decide)
    (by decide) (by decide)

/-- C7 counterexample: adding a guild's only member and then removing it
yields a reachable state in which both relational indices still map their
owner key to an empty set — the owner entries are not dropped. -/
theorem C7_counterexample_empty_entries_remain :
    Reachable allResources exState2 ∧
    exState2.guild_members 1 = some (∅ : Finset UserId) ∧
    exState2.user_guilds 7 = some (∅ : Finset GuildId) :=
  ⟨Reachable.step (CacheEvent.memberRemove exRemove)
      (Reachable.step (CacheEvent.memberAdd exAdd) Reachable.empty),
   by decide, by decide⟩

/-- C7 amended: `MemberRemove` erases the member id from the roster entry
and the guild id from the membership entry but keeps both owner entries in
place even when they become empty; only the User record is dropped when the
membership entry becomes empty. -/
theorem C7_amended_remove_keeps_owner_entries (e : MemberRemove)
    (c : ResourceSelector) (s : CacheState) (ms : Finset UserId)
    (gs : Finset GuildId) (hw : wants c ResourceType.MEMBER = true)
    (hgm : s.guild_members e.guild_id = some ms)
    (hug : s.user_guilds e.user.id = some gs) :
    (e.update c s).guild_members e.guild_id = some (ms.erase e.user.id) ∧
    (e.update c s).user_guilds e.user.id = some (gs.erase e.guild_id) ∧
    (e.update c s).users e.user.id =
      (if gs.erase e.guild_id = ∅ then none else s.users e.user.id) := by
  obtain ⟨h1, h2⟩ := memberRemove_membership_users e c s gs hw hug
  refine ⟨?_, h1, h2⟩
  rw [memberRemove_update_some_some e c s ms gs hw hgm hug]
  exact upd_same ..

theorem C7_amended_remove_keeps_owner_entries_witness :
    (MemberRemove.update exRemove allResources exState1).guild_members 1 =
      some (({7} : Finset UserId).erase 7) ∧
    (MemberRemove.update exRemove allResources exState1).user_guilds 7 =
      some (({1} : Finset GuildId).erase 1) ∧
    (MemberRemove.update exRemove allResources exState1).users 7 =
      (if ({1} : Finset GuildId).erase 1 = ∅ then none else exState1.users 7) :=
  C7_amended_remove_keeps_owner_entries exRemove allResources exState1 {7} {1}
    (by decide) (by decide) (by decide)

/-- A cached member with `pending := true` and a premium timestamp,
installed at key (1,7). -/
def exCached8 : CachedMember :=
  { deaf := some false, guild_id := 1, joined_at := some "t0", mute := some false,
    nick := some "old", pending := true, premium_since := some "p", roles := [1],
    user_id := 7 }

def exState8 : CacheState :=
  { members := upd (fun _ => none) (1, 7) (some exCached8)
    users := fun _ => none
    guild_members := upd (fun _ => none) 1 (some {7})
    user_guilds := fun _ => none }

def exPartial8 : PartialMember :=
  { deaf := false, joined_at := some "t1", mute := false, nick := some "new",
    roles := [2] }

/-- C8 counterexample: caching a partial-member payload over a cached
member with `pending := true` and a premium timestamp resets `pending` to
false and `premium_since` to none instead of preserving the prior cached
values. -/
theorem C8_counterexample_partial_resets_fields :
    exState8.members (1, 7) = some exCached8 ∧
    exCached8.pending = true ∧ exCached8.premium_since = some "p" ∧
    (cache_borrowed_partial_member exState8 1 exPartial8 7).members (1, 7) =
      some { deaf := some false, guild_id := 1, joined_at := some "t1",
             mute := some false, nick := some "new", pending := false,
             premium_since := none, roles := [2], user_id := 7 } :=
  ⟨by decide, by decide, by decide, by decide⟩

/-- C8 amended: the interaction-member path preserves the prior cached deaf
and mute values, but the partial-member path does not preserve the prior
pending flag and premium timestamp — it resets pending to false and
premium-since to none. -/
theorem C8_amended_partial_and_interaction_fields (s : CacheState) (g : GuildId)
    (im : InteractionMember) (pm : PartialMember) (u : UserId)
    (mi mp : CachedMember)
    (hi : s.members (g, im.id) = some mi)
    (hp : s.members (g, u) = some mp) (hne : ¬ mp.eqPartialMember pm) :
    (∃ m', (cache_borrowed_interaction_member s g im).members (g, im.id) = some m' ∧
      m'.deaf = mi.deaf ∧ m'.mute = mi.mute) ∧
    (∃ m', (cache_borrowed_partial_member s g pm u).members (g, u) = some m' ∧
      m'.pending = false ∧ m'.premium_since = none) := by
  constructor
  · unfold cache_borrowed_interaction_member
    rw [hi]
    by_cases he : mi.eqInteractionMember im
    · simp only [he, if_true]
      exact ⟨mi, hi, rfl, rfl⟩
    · simp only [he, if_false]
      rw [cache_borrowed_interaction_member_store_eq]
      exact ⟨_, upd_same .., rfl, rfl⟩
  · unfold cache_borrowed_partial_member
    rw [hp]
    simp only [hne, if_false]
    rw [cache_borrowed_partial_member_store_eq]
    exact ⟨_, upd_same .., rfl, rfl⟩

theorem C8_amended_partial_and_interaction_fields_witness :
    (∃ m', (cache_borrowed_interaction_member exState8 1
        { id := 7, joined_at := some "t1", nick := some "new",
          premium_since := none, roles := [2] }).members (1, 7) = some m' ∧
      m'.deaf = exCached8.deaf ∧ m'.mute = exCached8.mute) ∧
    (∃ m', (cache_borrowed_partial_member exState8 1 exPartial8 7).members (1, 7) = some m' ∧
      m'.pending = false ∧ m'.premium_since = none) :=
  C8_amended_partial_and_interaction_fields exState8 1
    { id := 7, joined_at := some "t1", nick := some "new",
      premium_since := none, roles := [2] }
    exPartial8 7 exCached8 exCached8 (by decide) (by decide) (by decide)

/-- C10: a `MemberUpdate` applied to a cached member modifies only that one
member record, keeping its premium_since, guild_id and user_id, and leaves
every other member record, the User table and both indices unchanged. -/
theorem C10_memberUpdate_frame (e : MemberUpdate) (c : ResourceSelector)
    (s : CacheState) (m : CachedMember)
    (hw : wants c ResourceType.MEMBER = true)
    (hc : s.members (e.guild_id, e.user.id) = some m) :
    (∃ m', (e.update c s).members (e.guild_id, e.user.id) = some m' ∧
      m'.premium_since = m.premium_since ∧ m'.guild_id = m.guild_id ∧
      m'.user_id = m.user_id) ∧
    (∀ k, k ≠ (e.guild_id, e.user.id) → (e.update c s).members k = s.members k) ∧
    (e.update c s).users = s.users ∧
    (e.update c s).guild_members = s.guild_members ∧
    (e.update c s).user_guilds = s.user_guilds := by
  rw [memberUpdate_update_on e c s m hw hc]
  refine ⟨⟨_, upd_same .., rfl, rfl, rfl⟩, ?_, rfl, rfl, rfl⟩
  intro k hk
  exact upd_ne _ _ hk

theorem C10_memberUpdate_frame_witness :
    (∃ m', (MemberUpdate.update exUpdate3 allResources exState3).members (1, 7) = some m' ∧
      m'.premium_since = exCached3.premium_since ∧ m'.guild_id = exCached3.guild_id ∧
      m'.user_id = exCached3.user_id) ∧
    (∀ k, k ≠ ((1 : GuildId), (7 : UserId)) →
      (MemberUpdate.update exUpdate3 allResources exState3).members k = exState3.members k) ∧
    (MemberUpdate.update exUpdate3 allResources exState3).users = exState3.users ∧
    (MemberUpdate.update exUpdate3 allResources exState3).guild_members = exState3.guild_members ∧
    (MemberUpdate.update exUpdate3 allResources exState3).user_guilds = exState3.user_guilds :=
  C10_memberUpdate_frame exUpdate3 allResources exState3 exCached3
    (by decide) (by decide)

end Twilight
